import Mathlib

/-!
Shallow embedding of the pw_transfer Python client
(`pw_transfer/py/pw_transfer/transfer.py`): the wire `Chunk` message, the
`_ReadTransfer` and `_WriteTransfer` state machines, the `Manager` entry
points and error callbacks, and a small system-level step relation tying
them together.  Asynchronous effects are made explicit: each handler
returns its updated state together with the list of chunks it sent, and
the one-shot response timer is a boolean flag (`start` sets it, `stop`
clears it; a cancelled timer never fires, per the Timer contract).
Machine integers are `Nat`/`Int`; `pending_bytes` and `max_bytes_to_send`
are `Int` because the Python code lets them go negative.
-/

namespace PwTransfer

/-- Status codes used by the transfer client (`pw_status.Status`). -/
inductive Status where
  | ok
  | deadlineExceeded
  | outOfRange
  | failedPrecondition
  | internal
  deriving DecidableEq, Repr

/-- The wire message (`pw_transfer.transfer_pb2.Chunk`).  Fields the code
reads directly carry proto defaults (`0` / empty); fields the code
presence-tests with `HasField` are `Option`. -/
structure Chunk where
  transfer_id : Nat := 0
  offset : Nat := 0
  data : List Nat := []
  pending_bytes : Nat := 0
  max_chunk_size_bytes : Option Nat := none
  min_delay_microseconds : Option Nat := none
  remaining_bytes : Option Nat := none
  status : Option Status := none
  deriving DecidableEq, Repr

/-- A chunk is terminating when its `status` field is set. -/
def Chunk.terminating (c : Chunk) : Bool := c.status.isSome

/-! ## `_ReadTransfer` -/

/-- State of a `_ReadTransfer` (fields of `_Transfer` plus the read-specific
ones).  `timerRunning` models whether the response `_Timer` is armed. -/
structure ReadState where
  id : Nat
  data : List Nat
  done : Bool
  status : Status
  timerRunning : Bool
  chunkTimeoutCount : Nat
  maxRetries : Nat
  maxBytesToReceive : Nat
  maxChunkSize : Nat
  chunkDelayUs : Option Nat
  remainingTransferSize : Option Nat
  offset : Nat
  pendingBytes : Int
  deriving DecidableEq, Repr

/-- A freshly constructed `_ReadTransfer` (its `__init__`). -/
def freshRead (tid maxRetries maxBytesToReceive maxChunkSize : Nat)
    (chunkDelayUs : Option Nat) : ReadState :=
  { id := tid
    data := []
    done := false
    status := .ok
    timerRunning := false
    chunkTimeoutCount := 0
    maxRetries := maxRetries
    maxBytesToReceive := maxBytesToReceive
    maxChunkSize := maxChunkSize
    chunkDelayUs := chunkDelayUs
    remainingTransferSize := none
    offset := 0
    pendingBytes := (maxBytesToReceive : Int) }

/-- Python truthiness of the optional `chunk_delay_us`: the field is set on
the outgoing chunk only when the value is present and nonzero. -/
def minDelayField (o : Option Nat) : Option Nat :=
  match o with
  | some d => if d = 0 then none else some d
  | none => none

/-- The parameters chunk built by `_send_transfer_parameters` (after it has
reset `pending_bytes` to `max_bytes_to_receive`). -/
def paramsChunk (st : ReadState) : Chunk :=
  { transfer_id := st.id
    pending_bytes := st.maxBytesToReceive
    max_chunk_size_bytes := some st.maxChunkSize
    offset := st.offset
    min_delay_microseconds := minDelayField st.chunkDelayUs }

/-- `_ReadTransfer._send_transfer_parameters`: reset the window, send the
parameters chunk, start the response timer. -/
def sendTransferParameters (st : ReadState) : ReadState × Chunk :=
  let st1 := { st with pendingBytes := (st.maxBytesToReceive : Int) }
  ({ st1 with timerRunning := true }, paramsChunk st1)

/-- `_Transfer.finish`: stop the timer, record the status, set `done`. -/
def readFinish (st : ReadState) (s : Status) : ReadState :=
  { st with timerRunning := false, status := s, done := true }

/-- Tail of `_ReadTransfer.handle_chunk` after the data was appended: if the
window is exhausted send fresh parameters, otherwise re-arm the timer. -/
def readAfterData (st : ReadState) : ReadState × List Chunk :=
  if st.pendingBytes = 0 then
    let p := sendTransferParameters st
    (p.1, [p.2])
  else
    ({ st with timerRunning := true }, [])

/-- `_ReadTransfer.handle_chunk` (non-terminating chunks only).  Returns the
updated state and the chunks sent while handling.  The initial timer stop
and timeout-count reset are folded into each branch's record update. -/
def readHandleChunk (st : ReadState) (c : Chunk) : ReadState × List Chunk :=
  if c.offset ≠ st.offset then
    let p := sendTransferParameters
      { st with timerRunning := false, chunkTimeoutCount := 0, pendingBytes := 0 }
    (p.1, [p.2])
  else
    let st1 := { st with
      timerRunning := false
      chunkTimeoutCount := 0
      data := st.data ++ c.data
      pendingBytes := st.pendingBytes - (c.data.length : Int)
      offset := st.offset + c.data.length }
    match c.remaining_bytes with
    | some 0 =>
        (readFinish st1 .ok, [{ transfer_id := st1.id, status := some .ok }])
    | some (n + 1) =>
        readAfterData { st1 with remainingTransferSize := some (n + 1) }
    | none =>
        readAfterData st1

/-- `_ReadTransfer._on_timeout`: bump the timeout count; past `max_retries`
finish with DEADLINE_EXCEEDED, otherwise resend the parameters. -/
def readOnTimeout (st : ReadState) : ReadState × List Chunk :=
  if st.maxRetries < st.chunkTimeoutCount + 1 then
    (readFinish { st with chunkTimeoutCount := st.chunkTimeoutCount + 1 }
      .deadlineExceeded, [])
  else
    let p := sendTransferParameters
      { st with chunkTimeoutCount := st.chunkTimeoutCount + 1 }
    (p.1, [p.2])

/-- `_ReadTransfer.begin`: send the initial transfer parameters. -/
def readBegin (st : ReadState) : ReadState × Chunk :=
  sendTransferParameters st

/-! ## `_WriteTransfer` -/

/-- State of a `_WriteTransfer`.  `data` is the caller's payload, immutable
after construction. -/
structure WriteState where
  id : Nat
  data : List Nat
  done : Bool
  status : Status
  timerRunning : Bool
  offset : Nat
  maxBytesToSend : Int
  maxChunkSize : Nat
  chunkDelayUs : Option Nat
  deriving DecidableEq, Repr

/-- A freshly constructed `_WriteTransfer` (its `__init__`). -/
def freshWrite (tid : Nat) (payload : List Nat) : WriteState :=
  { id := tid
    data := payload
    done := false
    status := .ok
    timerRunning := false
    offset := 0
    maxBytesToSend := 0
    maxChunkSize := 0
    chunkDelayUs := none }

/-- `_Transfer.finish` for a write transfer. -/
def writeFinish (st : WriteState) (s : Status) : WriteState :=
  { st with timerRunning := false, status := s, done := true }

/-- `_WriteTransfer.begin`: send the bare transfer-id chunk and start the
response timer. -/
def writeBegin (st : WriteState) : WriteState × Chunk :=
  ({ st with timerRunning := true }, { transfer_id := st.id })

/-- `_WriteTransfer._next_chunk`.  Python's `len(self.data) - self._offset`
may be negative; with `Nat` truncation both land in the final-chunk branch,
whose slice `data[offset:]` is then empty, matching Python slicing. -/
def nextChunk (st : WriteState) : Chunk :=
  if st.data.length - st.offset ≤ st.maxChunkSize then
    { transfer_id := st.id
      offset := st.offset
      data := st.data.drop st.offset
      remaining_bytes := some 0 }
  else
    { transfer_id := st.id
      offset := st.offset
      data := (st.data.drop st.offset).take st.maxChunkSize }

/-- One iteration of the send loop on the state: emit `_next_chunk`,
advance `offset` and decrement `max_bytes_to_send` by its data length. -/
def sendStep (st : WriteState) : WriteState :=
  { st with
    offset := st.offset + (nextChunk st).data.length
    maxBytesToSend := st.maxBytesToSend - ((nextChunk st).data.length : Int) }

/-- The `while self._max_bytes_to_send > 0` loop of
`_WriteTransfer.handle_chunk`, with explicit fuel.  Each iteration emits
`_next_chunk` and applies `sendStep`.  The fuel is sufficient whenever
`max_chunk_size` is positive; with `max_chunk_size = 0` the Python loop
never exits. -/
def sendLoop (fuel : Nat) (st : WriteState) : WriteState × List Chunk :=
  match fuel with
  | 0 => (st, [])
  | fuel + 1 =>
      if st.maxBytesToSend > 0 then
        let p := sendLoop fuel (sendStep st)
        (p.1, nextChunk st :: p.2)
      else
        (st, [])

/-- The parameter updates `handle_chunk` performs before its send loop:
stop the timer, adopt the server's offset, set
`max_bytes_to_send = min(chunk.pending_bytes, len(data) - offset)`, and
take over `max_chunk_size_bytes` / `min_delay_microseconds` when present. -/
def paramsUpdate (st : WriteState) (c : Chunk) : WriteState :=
  { st with
    timerRunning := false
    offset := c.offset
    maxBytesToSend :=
      min (c.pending_bytes : Int) ((st.data.length : Int) - (c.offset : Int))
    maxChunkSize := (c.max_chunk_size_bytes).getD st.maxChunkSize
    chunkDelayUs :=
      match c.min_delay_microseconds with
      | some v => some v
      | none => st.chunkDelayUs }

/-- The send loop `handle_chunk` runs after `paramsUpdate`, with fuel
`max_bytes_to_send.toNat` — exact whenever `max_chunk_size` is positive
(see the termination lemmas below). -/
def loopOf (st : WriteState) (c : Chunk) : WriteState × List Chunk :=
  sendLoop (paramsUpdate st c).maxBytesToSend.toNat (paramsUpdate st c)

/-- `_WriteTransfer.handle_chunk` (non-terminating chunks only).  Stops the
timer, adopts the server's offset, terminates with OUT_OF_RANGE past EOF,
otherwise updates the window and parameters and runs the send loop. -/
def writeHandleChunk (st : WriteState) (c : Chunk) : WriteState × List Chunk :=
  if st.data.length < c.offset then
    (writeFinish { st with timerRunning := false, offset := c.offset } .outOfRange,
     [{ transfer_id := st.id, status := some .outOfRange }])
  else
    ({ (loopOf st c).1 with timerRunning := true }, (loopOf st c).2)

/-! ## Runs of a single transfer against a server chunk trace

`Manager._handle_chunk` dispatches an incoming chunk to the registered
transfer: a chunk with `status` set finishes the transfer directly, any
other chunk goes to `handle_chunk`.  Once a transfer is done it is
deregistered, so later chunks for its id are dropped. -/

/-- Run a read transfer over a list of incoming server chunks, collecting
every chunk the client sends in response. -/
def readRun (st : ReadState) : List Chunk → ReadState × List Chunk
  | [] => (st, [])
  | c :: cs =>
      if st.done then (st, [])
      else
        match c.status with
        | some s =>
            let p := readRun (readFinish st s) cs
            (p.1, p.2)
        | none =>
            let p := readHandleChunk st c
            let q := readRun p.1 cs
            (q.1, p.2 ++ q.2)

/-- The data actually accepted by a read transfer along a trace: the `data`
of exactly those non-terminating chunks whose `offset` equals the
transfer's expected offset when they are handled, concatenated in order. -/
def readAccepted (st : ReadState) : List Chunk → List Nat
  | [] => []
  | c :: cs =>
      if st.done then []
      else
        match c.status with
        | some s => readAccepted (readFinish st s) cs
        | none =>
            if c.offset = st.offset then
              c.data ++ readAccepted (readHandleChunk st c).1 cs
            else
              readAccepted (readHandleChunk st c).1 cs

/-- Apply `_on_timeout` to a read transfer `n` times (a server that sends
nothing), collecting the emitted chunks.  A finished transfer has its
timer stopped, so no further timeouts fire. -/
def timeoutRun (n : Nat) (st : ReadState) : ReadState × List Chunk :=
  match n with
  | 0 => (st, [])
  | n + 1 =>
      if st.done then (st, [])
      else
        let p := readOnTimeout st
        let q := timeoutRun n p.1
        (q.1, p.2 ++ q.2)

/-- Run a write transfer over a list of incoming server chunks (parameters
updates and terminating chunks), collecting every chunk the client sends. -/
def writeRun (st : WriteState) : List Chunk → WriteState × List Chunk
  | [] => (st, [])
  | c :: cs =>
      if st.done then (st, [])
      else
        match c.status with
        | some s =>
            let p := writeRun (writeFinish st s) cs
            (p.1, p.2)
        | none =>
            let p := writeHandleChunk st c
            let q := writeRun p.1 cs
            (q.1, p.2 ++ q.2)

/-- A server chunk trace for a write transfer is in-order when every
parameters chunk requests exactly the client's current offset and keeps
the effective `max_chunk_size` positive. -/
def inOrderB (st : WriteState) : List Chunk → Bool
  | [] => true
  | c :: cs =>
      if st.done then true
      else
        match c.status with
        | some s => inOrderB (writeFinish st s) cs
        | none =>
            decide (c.offset = st.offset)
              && decide (0 < (c.max_chunk_size_bytes).getD st.maxChunkSize)
              && inOrderB (writeHandleChunk st c).1 cs

/-- A list of naturals is non-decreasing. -/
def nondecr : List Nat → Bool
  | [] => true
  | [_] => true
  | x :: y :: t => decide (x ≤ y) && nondecr (y :: t)

/-! ## Manager -/

/-- The Manager state visible to the claims: the two stream handles (a
`Bool` models handle-present) and the two registries in insertion order. -/
structure Mgr where
  readStream : Bool
  writeStream : Bool
  readTransfers : List (Nat × ReadState)
  writeTransfers : List (Nat × WriteState)
  posted : List Nat
  deriving DecidableEq, Repr

/-- CPython semantics of `for k, t in dict.items(): t.finish(INTERNAL)`
where `finish` ends with `del dict[k]`: the iterator caches the dict size
and every advance first checks it, raising RuntimeError on mismatch (even
when the iteration would otherwise end).  Returns `(completed?, dict at
exit, transfers finished so far)`; `completed? = false` means the loop
raised. -/
def itemsFinishLoop (cached : Nat) (pending dict fin : List (Nat × ReadState)) :
    Bool × List (Nat × ReadState) × List (Nat × ReadState) :=
  if dict.length ≠ cached then (false, dict, fin)
  else
    match pending with
    | [] => (true, dict, fin)
    | (k, t) :: rest =>
        let dict1 := dict.eraseP (fun kv => kv.1 = k)
        itemsFinishLoop cached rest dict1 (fin ++ [(k, readFinish t .internal)])

/-- Same loop for the write registry. -/
def itemsFinishLoopW (cached : Nat) (pending dict fin : List (Nat × WriteState)) :
    Bool × List (Nat × WriteState) × List (Nat × WriteState) :=
  if dict.length ≠ cached then (false, dict, fin)
  else
    match pending with
    | [] => (true, dict, fin)
    | (k, t) :: rest =>
        let dict1 := dict.eraseP (fun kv => kv.1 = k)
        itemsFinishLoopW cached rest dict1 (fin ++ [(k, writeFinish t .internal)])

/-- `Manager._on_read_error`.  Result: `(no exception?, manager state,
transfers finished with INTERNAL)`. -/
def onReadError (m : Mgr) (s : Status) : Bool × Mgr × List (Nat × ReadState) :=
  if s = .failedPrecondition then
    (true, { m with readStream := true }, [])
  else
    let m1 := { m with readStream := false }
    let r := itemsFinishLoop m1.readTransfers.length m1.readTransfers
      m1.readTransfers []
    if r.1 then
      (true, { m1 with readTransfers := [] }, r.2.2)
    else
      (false, { m1 with readTransfers := r.2.1 }, r.2.2)

/-- `Manager._on_write_error`. -/
def onWriteError (m : Mgr) (s : Status) : Bool × Mgr × List (Nat × WriteState) :=
  if s = .failedPrecondition then
    (true, { m with writeStream := true }, [])
  else
    let m1 := { m with writeStream := false }
    let r := itemsFinishLoopW m1.writeTransfers.length m1.writeTransfers
      m1.writeTransfers []
    if r.1 then
      (true, { m1 with writeTransfers := [] }, r.2.2)
    else
      (false, { m1 with writeTransfers := r.2.1 }, r.2.2)

/-- Entry of `Manager.read` up to posting the new transfer: reject a
duplicate id before doing anything, otherwise register the fresh transfer,
open the stream if needed, and post the new-transfer event.  `.error ()`
is the ValueError; the manager state is untouched in that case. -/
def managerRead (m : Mgr) (tid : Nat) : Except Unit Mgr :=
  if m.readTransfers.any (fun kv => kv.1 = tid) then
    .error ()
  else
    let t := freshRead tid 3 8192 1024 none
    let m1 := { m with readTransfers := m.readTransfers ++ [(tid, t)] }
    let m2 := if m1.readStream then m1 else { m1 with readStream := true }
    .ok { m2 with posted := m2.posted ++ [tid] }

/-- Entry of `Manager.write` up to posting the new transfer. -/
def managerWrite (m : Mgr) (tid : Nat) (payload : List Nat) : Except Unit Mgr :=
  if m.writeTransfers.any (fun kv => kv.1 = tid) then
    .error ()
  else
    let t := freshWrite tid payload
    let m1 := { m with writeTransfers := m.writeTransfers ++ [(tid, t)] }
    let m2 := if m1.writeStream then m1 else { m1 with writeStream := true }
    .ok { m2 with posted := m2.posted ++ [tid] }

/-! ## Task-level timer model

The `Bool` field `timerRunning` above abstracts the timer as start/stop.
The actual `_Timer` runs an asyncio task: `start` cancels `self._task` and
creates a new task, `stop` cancels `self._task`, and the task body `_run`
sleeps, invokes the callback, and then sets `self._task = None` — even
when the callback has just started a fresh task.  To reason about the
timer lifecycle itself we model tasks explicitly: `task` is `self._task`,
`alive` lists created tasks that were neither cancelled nor completed, and
`nextTask` numbers new tasks. -/
structure Timer where
  task : Option Nat
  alive : List Nat
  nextTask : Nat
  deriving DecidableEq, Repr

/-- `_Timer.stop`: cancel the task named by the handle, if any. -/
def timerStop (t : Timer) : Timer :=
  match t.task with
  | some tid => { t with alive := t.alive.erase tid, task := none }
  | none => t

/-- `_Timer.start`: stop, then create and remember a fresh task. -/
def timerStart (t : Timer) : Timer :=
  let t1 := timerStop t
  { alive := t1.alive ++ [t1.nextTask]
    task := some t1.nextTask
    nextTask := t1.nextTask + 1 }

/-- `_send_transfer_parameters` with the task-level timer. -/
def sendTransferParametersT (s : ReadState) (t : Timer) :
    (ReadState × Timer) × Chunk :=
  let s1 := { s with pendingBytes := (s.maxBytesToReceive : Int) }
  ((s1, timerStart t), paramsChunk s1)

/-- `_Transfer.finish` with the task-level timer. -/
def readFinishT (s : ReadState) (t : Timer) (st : Status) : ReadState × Timer :=
  ({ s with status := st, done := true }, timerStop t)

/-- Tail of `handle_chunk` after the data was appended, task-level timer. -/
def readAfterDataT (s : ReadState) (t : Timer) : (ReadState × Timer) × List Chunk :=
  if s.pendingBytes = 0 then
    let p := sendTransferParametersT s t
    (p.1, [p.2])
  else
    ((s, timerStart t), [])

/-- `_ReadTransfer.handle_chunk` with the task-level timer. -/
def readHandleChunkT (s : ReadState) (t : Timer) (c : Chunk) :
    (ReadState × Timer) × List Chunk :=
  let t0 := timerStop t
  if c.offset ≠ s.offset then
    let p := sendTransferParametersT
      { s with chunkTimeoutCount := 0, pendingBytes := 0 } t0
    (p.1, [p.2])
  else
    let s1 := { s with
      chunkTimeoutCount := 0
      data := s.data ++ c.data
      pendingBytes := s.pendingBytes - (c.data.length : Int)
      offset := s.offset + c.data.length }
    match c.remaining_bytes with
    | some 0 =>
        (readFinishT s1 t0 .ok, [{ transfer_id := s1.id, status := some .ok }])
    | some (n + 1) =>
        readAfterDataT { s1 with remainingTransferSize := some (n + 1) } t0
    | none =>
        readAfterDataT s1 t0

/-- `_ReadTransfer._on_timeout` with the task-level timer. -/
def readOnTimeoutT (s : ReadState) (t : Timer) : (ReadState × Timer) × List Chunk :=
  let s1 := { s with chunkTimeoutCount := s.chunkTimeoutCount + 1 }
  if s1.chunkTimeoutCount > s1.maxRetries then
    (readFinishT s1 t .deadlineExceeded, [])
  else
    let p := sendTransferParametersT s1 t
    (p.1, [p.2])

/-- One read transfer under the Manager, with its task-level timer and its
registry membership. -/
structure TSys where
  rs : ReadState
  tm : Timer
  registered : Bool
  deriving DecidableEq, Repr

/-- Events delivered by the event loop to this transfer: an incoming chunk
(dispatched only while the transfer is registered) or the wakeup of a
sleeping timer task (which runs regardless of the transfer's state — the
callback itself never checks `done`). -/
inductive TEv where
  | chunkArrive (c : Chunk)
  | taskFire (tid : Nat)
  deriving DecidableEq, Repr

/-- One scheduler step.  A firing task runs the callback and then `_run`
executes `self._task = None`, clobbering any handle the callback just
installed; the fired task leaves `alive` because it has completed. -/
def tSysStep (x : TSys) (e : TEv) : TSys × List Chunk :=
  match e with
  | .chunkArrive c =>
      if x.registered then
        match c.status with
        | some s =>
            let p := readFinishT x.rs x.tm s
            ({ rs := p.1, tm := p.2, registered := false }, [])
        | none =>
            let p := readHandleChunkT x.rs x.tm c
            ({ rs := p.1.1, tm := p.1.2, registered := !p.1.1.done }, p.2)
      else (x, [])
  | .taskFire tid =>
      if tid ∈ x.tm.alive then
        let t0 := { x.tm with alive := x.tm.alive.erase tid }
        let p := readOnTimeoutT x.rs t0
        let t1 := { p.1.2 with task := none }
        ({ rs := p.1.1, tm := t1, registered := x.registered && !p.1.1.done }, p.2)
      else (x, [])

/-- Run a list of events, collecting all emitted chunks. -/
def tSysRun (x : TSys) : List TEv → TSys × List Chunk
  | [] => (x, [])
  | e :: es =>
      let p := tSysStep x e
      let q := tSysRun p.1 es
      (q.1, p.2 ++ q.2)

/-- Registration plus `begin` of a fresh read transfer (no timer task yet). -/
def tSysStart (tid mr mbr mcs : Nat) (d : Option Nat) : TSys × Chunk :=
  let p := sendTransferParametersT (freshRead tid mr mbr mcs d)
    { task := none, alive := [], nextTask := 0 }
  ({ rs := p.1.1, tm := p.1.2, registered := true }, p.2)

/-- A manager with transfer id 5 registered in both directions, used by
the duplicate-id witness. -/
def dupMgr : Mgr :=
  { readStream := true
    writeStream := true
    readTransfers := [(5, freshRead 5 3 8192 1024 none)]
    writeTransfers := [(5, freshWrite 5 [1])]
    posted := [] }

/-- A manager with two registered read transfers, used to exhibit the
`_on_read_error` dict-iteration bug. -/
def twoReadMgr : Mgr :=
  { readStream := true
    writeStream := false
    readTransfers :=
      [(1, freshRead 1 3 8192 1024 none), (2, freshRead 2 3 8192 1024 none)]
    writeTransfers := []
    posted := [] }

/-- The system state after: a read transfer begins (timer task 0), task 0
fires (one retry: parameters resent, task 1 started, but `_Timer._run`
then clears the handle), and the final data chunk arrives so the transfer
finishes with OK. -/
def orphanTimerSys : TSys :=
  (tSysRun (tSysStart 1 3 8192 1024 none).1
    [.taskFire 0,
     .chunkArrive { transfer_id := 1, offset := 0, data := [5],
                    remaining_bytes := some 0 }]).1

/-! ## Theorems -/

/-- C9: calling `_send_transfer_parameters` twice in succession, with no
intervening change to `offset`, `max_bytes_to_receive`, `max_chunk_size`
or `chunk_delay_us`, sends two identical parameters chunks: the function
is deterministic in that state, and its own mutation of `pending_bytes`
does not change the emitted chunk. -/
theorem c9_params_resend_idempotent (st : ReadState) :
    (sendTransferParameters (sendTransferParameters st).1).2 =
      (sendTransferParameters st).2 := rfl

/-- C5: when an incoming non-terminating chunk carries an offset strictly
greater than the payload length, a write transfer emits exactly one chunk
{transfer_id = id, status = OUT_OF_RANGE} and finishes locally with
OUT_OF_RANGE; no data chunk is emitted for that parameters update. -/
theorem c5_write_bad_offset (st : WriteState) (c : Chunk)
    (h : st.data.length < c.offset) :
    writeHandleChunk st c =
      ({ st with timerRunning := false, offset := c.offset,
                 status := .outOfRange, done := true },
       [{ transfer_id := st.id, status := some .outOfRange }]) ∧
    ∀ c2 ∈ (writeHandleChunk st c).2, c2.data = [] := by
  constructor
  · rw [writeHandleChunk, if_pos h]
    rfl
  · intro c2 hc2
    rw [writeHandleChunk, if_pos h] at hc2
    simp only [List.mem_singleton] at hc2
    subst hc2
    rfl

/-- Witness for C5 at a concrete input (scenario S4: payload of length 5,
server requests offset 99). -/
theorem c5_write_bad_offset_witness :
    (freshWrite 2 [10, 11, 12, 13, 14]).data.length < 99 ∧
    (writeHandleChunk (freshWrite 2 [10, 11, 12, 13, 14])
        { transfer_id := 2, offset := 99, pending_bytes := 1,
          max_chunk_size_bytes := some 1 } =
      ({ freshWrite 2 [10, 11, 12, 13, 14] with
          timerRunning := false
          offset := 99
          status := .outOfRange
          done := true },
       [{ transfer_id := 2, status := some .outOfRange }]) ∧
     ∀ c2 ∈ (writeHandleChunk (freshWrite 2 [10, 11, 12, 13, 14])
        { transfer_id := 2, offset := 99, pending_bytes := 1,
          max_chunk_size_bytes := some 1 }).2, c2.data = []) :=
  ⟨by decide, c5_write_bad_offset _ _ (by decide)⟩

/-- C6: an incoming non-terminating chunk whose offset differs from the
expected offset leaves the accumulated data, the offset, `done` and
`status` unchanged, and re-emits exactly the parameters chunk at the
current offset. -/
theorem c6_read_gap_requests_retransmit (st : ReadState) (c : Chunk)
    (h : c.offset ≠ st.offset) :
    (readHandleChunk st c).1.data = st.data ∧
    (readHandleChunk st c).1.offset = st.offset ∧
    (readHandleChunk st c).1.done = st.done ∧
    (readHandleChunk st c).1.status = st.status ∧
    (readHandleChunk st c).2 = [paramsChunk st] ∧
    (paramsChunk st).offset = st.offset ∧ (paramsChunk st).status = none := by
  rw [readHandleChunk, if_pos h]
  exact ⟨rfl, rfl, rfl, rfl, rfl, rfl, rfl⟩

/-- Witness for C6 at a concrete input (scenario S6: data `[97, 98]`,
offset 2, gap chunk at offset 5). -/
theorem c6_read_gap_requests_retransmit_witness :
    (5 : Nat) ≠ ({ freshRead 3 3 8192 1024 none with
      data := [97, 98], offset := 2 } : ReadState).offset ∧
    ((readHandleChunk { freshRead 3 3 8192 1024 none with
        data := [97, 98], offset := 2 }
        { transfer_id := 3, offset := 5, data := [120, 121] }).1.data
        = [97, 98] ∧
     (readHandleChunk { freshRead 3 3 8192 1024 none with
        data := [97, 98], offset := 2 }
        { transfer_id := 3, offset := 5, data := [120, 121] }).1.offset = 2 ∧
     (readHandleChunk { freshRead 3 3 8192 1024 none with
        data := [97, 98], offset := 2 }
        { transfer_id := 3, offset := 5, data := [120, 121] }).1.done = false ∧
     (readHandleChunk { freshRead 3 3 8192 1024 none with
        data := [97, 98], offset := 2 }
        { transfer_id := 3, offset := 5, data := [120, 121] }).2
        = [paramsChunk { freshRead 3 3 8192 1024 none with
            data := [97, 98], offset := 2 }] ∧
     (paramsChunk { freshRead 3 3 8192 1024 none with
        data := [97, 98], offset := 2 }).offset = 2) := by
  have h := c6_read_gap_requests_retransmit
    ({ freshRead 3 3 8192 1024 none with data := [97, 98], offset := 2 })
    { transfer_id := 3, offset := 5, data := [120, 121] } (by decide)
  exact ⟨by decide, h.1, h.2.1, h.2.2.1, h.2.2.2.2.1, by decide⟩

/-- C7: a second `read(tid)` while `tid` is registered in the read registry
raises ValueError immediately, and likewise a second `write(tid, payload)`
while `tid` is registered in the write registry.  Each direction's check
depends only on that direction's own registry (the other registry is
unconstrained), happens before a transfer is created, a stream opened or
anything posted, and leaves the manager — including the already-registered
transfer — untouched. -/
theorem c7_duplicate_id_rejected (m : Mgr) (tid : Nat) (payload : List Nat) :
    (m.readTransfers.any (fun kv => kv.1 = tid) = true →
      managerRead m tid = .error ()) ∧
    (m.writeTransfers.any (fun kv => kv.1 = tid) = true →
      managerWrite m tid payload = .error ()) := by
  constructor
  · intro h1
    rw [managerRead, if_pos h1]
  · intro h2
    rw [managerWrite, if_pos h2]

/-- Witness for C7: at `dupMgr` both directional hypotheses hold for id 5,
so both rejections are exercised non-vacuously. -/
theorem c7_duplicate_id_rejected_witness :
    (dupMgr.readTransfers.any (fun kv => kv.1 = 5) = true ∧
     dupMgr.writeTransfers.any (fun kv => kv.1 = 5) = true) ∧
    ((dupMgr.readTransfers.any (fun kv => kv.1 = 5) = true →
       managerRead dupMgr 5 = .error ()) ∧
     (dupMgr.writeTransfers.any (fun kv => kv.1 = 5) = true →
       managerWrite dupMgr 5 [2] = .error ())) :=
  ⟨⟨by decide, by decide⟩, c7_duplicate_id_rejected dupMgr 5 [2]⟩

/-- C4: `_on_read_error` with a non-FAILED_PRECONDITION status iterates
`self._read_transfers.items()` while `finish` deletes from that same dict,
so CPython raises RuntimeError after the first transfer: the first
transfer is finished with INTERNAL and removed, the second is neither
finished nor removed, and the registry is not left empty — contradicting
the claim for two outstanding transfers. -/
theorem c4_read_error_dict_iteration_bug :
    (onReadError twoReadMgr .internal).1 = false ∧
    (onReadError twoReadMgr .internal).2.1.readTransfers.map
      (fun kv => kv.1) = [2] ∧
    (∀ kv ∈ (onReadError twoReadMgr .internal).2.1.readTransfers,
      kv.2.done = false) ∧
    (onReadError twoReadMgr .internal).2.2.map
      (fun kv => (kv.1, kv.2.done, kv.2.status)) = [(1, true, .internal)] ∧
    (onReadError twoReadMgr .internal).2.1.readStream = false := by
  decide

/-- C8: the transfer-lifetime invariant fails.  After `finish(OK)` the
response timer is not stopped — timer task 1, whose handle `_Timer._run`
clobbered after the retry, is still scheduled — and when it fires, the
finished (and deregistered) transfer sends another parameters chunk. -/
theorem c8_orphan_timer_fires_after_finish :
    orphanTimerSys.rs.done = true ∧
    orphanTimerSys.rs.status = .ok ∧
    orphanTimerSys.registered = false ∧
    orphanTimerSys.tm.alive = [1] ∧
    (tSysStep orphanTimerSys (.taskFire 1)).2 =
      [paramsChunk { orphanTimerSys.rs with chunkTimeoutCount := 1 }] := by
  decide

/-! ### C1: read data is the concatenation of the accepted chunks -/

lemma readAfterData_data (st : ReadState) : (readAfterData st).1.data = st.data := by
  unfold readAfterData
  split <;> rfl

lemma readHandleChunk_data (st : ReadState) (c : Chunk) :
    (readHandleChunk st c).1.data =
      if c.offset = st.offset then st.data ++ c.data else st.data := by
  by_cases h : c.offset = st.offset
  · rw [if_pos h]
    unfold readHandleChunk
    rw [if_neg (not_not_intro h)]
    cases hr : c.remaining_bytes with
    | none => rw [readAfterData_data]
    | some n =>
        cases n with
        | zero => rfl
        | succ m => rw [readAfterData_data]
  · rw [if_neg h]
    unfold readHandleChunk
    rw [if_pos h]
    rfl

lemma readRun_data_eq (st : ReadState) (cs : List Chunk) :
    (readRun st cs).1.data = st.data ++ readAccepted st cs := by
  induction cs generalizing st with
  | nil => simp [readRun, readAccepted]
  | cons c cs ih =>
      rw [readRun, readAccepted]
      by_cases hd : st.done = true
      · rw [if_pos hd, if_pos hd]
        simp
      · rw [if_neg hd, if_neg hd]
        cases hs : c.status with
        | some s => exact ih (readFinish st s)
        | none =>
            by_cases ho : c.offset = st.offset
            · rw [if_pos ho]
              show (readRun (readHandleChunk st c).1 cs).1.data =
                st.data ++ (c.data ++ readAccepted (readHandleChunk st c).1 cs)
              rw [ih, readHandleChunk_data, if_pos ho, List.append_assoc]
            · rw [if_neg ho]
              show (readRun (readHandleChunk st c).1 cs).1.data =
                st.data ++ readAccepted (readHandleChunk st c).1 cs
              rw [ih, readHandleChunk_data, if_neg ho]

/-- C1 (amended): for a read transfer that completes with status OK, the
final `data` equals the concatenation, in the order received, of the
`data` of exactly those non-terminating chunks whose offset equalled the
transfer's expected offset when handled; out-of-order chunks are ignored
and contribute nothing. -/
theorem c1_read_data_is_accepted (tid mr mbr mcs : Nat) (d : Option Nat)
    (cs : List Chunk)
    (hdone : (readRun (freshRead tid mr mbr mcs d) cs).1.done = true)
    (hok : (readRun (freshRead tid mr mbr mcs d) cs).1.status = .ok) :
    (readRun (freshRead tid mr mbr mcs d) cs).1.data =
      readAccepted (freshRead tid mr mbr mcs d) cs := by
  have h := readRun_data_eq (freshRead tid mr mbr mcs d) cs
  simpa [freshRead] using h

/-- A server chunk trace containing an out-of-order (gap) chunk that the
client ignores, after which the transfer still completes with OK. -/
def c1GapTrace : List Chunk :=
  [{ transfer_id := 3, offset := 0, data := [97, 98] },
   { transfer_id := 3, offset := 5, data := [120, 121] },
   { transfer_id := 3, offset := 2, data := [99, 100],
     remaining_bytes := some 0 }]

/-- C1 as stated is false: this read transfer completes with OK after
handling three non-terminating chunks, yet its final data omits the
ignored gap chunk's bytes and so differs from the concatenation of the
`data` of every non-terminating chunk handled. -/
theorem c1_concat_of_all_chunks_counterexample :
    (readRun (freshRead 3 3 8192 1024 none) c1GapTrace).1.done = true ∧
    (readRun (freshRead 3 3 8192 1024 none) c1GapTrace).1.status = .ok ∧
    (readRun (freshRead 3 3 8192 1024 none) c1GapTrace).1.data =
      [97, 98, 99, 100] ∧
    (c1GapTrace.filter (fun c => c.status.isNone)).flatMap (fun c => c.data) =
      [97, 98, 120, 121, 99, 100] ∧
    (readRun (freshRead 3 3 8192 1024 none) c1GapTrace).1.data ≠
      (c1GapTrace.filter (fun c => c.status.isNone)).flatMap (fun c => c.data) := by
  decide

/-- An in-order trace completing with OK, witnessing C1's amended form. -/
def c1OkTrace : List Chunk :=
  [{ transfer_id := 3, offset := 0, data := [1, 2] },
   { transfer_id := 3, offset := 2, data := [3], remaining_bytes := some 0 }]

/-- Witness for the amended C1 at a concrete in-order trace. -/
theorem c1_read_data_is_accepted_witness :
    (readRun (freshRead 3 3 8192 1024 none) c1OkTrace).1.done = true ∧
    (readRun (freshRead 3 3 8192 1024 none) c1OkTrace).1.status = .ok ∧
    (readRun (freshRead 3 3 8192 1024 none) c1OkTrace).1.data =
      readAccepted (freshRead 3 3 8192 1024 none) c1OkTrace :=
  ⟨by decide, by decide,
   c1_read_data_is_accepted 3 3 8192 1024 none c1OkTrace (by decide) (by decide)⟩

/-! ### C3: retry bound for a silent server -/

lemma timeoutRun_done (n : Nat) (st : ReadState) (h : st.done = true) :
    timeoutRun n st = (st, []) := by
  cases n with
  | zero => rfl
  | succ n => rw [timeoutRun, if_pos h]

lemma timeoutRun_succ (n : Nat) (st : ReadState) (hd : st.done = false) :
    timeoutRun (n + 1) st =
      ((timeoutRun n (readOnTimeout st).1).1,
       (readOnTimeout st).2 ++ (timeoutRun n (readOnTimeout st).1).2) := by
  rw [timeoutRun, if_neg (by simp [hd])]

lemma readOnTimeout_finish (st : ReadState)
    (hgt : st.maxRetries < st.chunkTimeoutCount + 1) :
    readOnTimeout st =
      (readFinish { st with chunkTimeoutCount := st.chunkTimeoutCount + 1 }
        .deadlineExceeded, []) := by
  rw [readOnTimeout, if_pos hgt]

lemma readOnTimeout_retry (st : ReadState)
    (hle : ¬ st.maxRetries < st.chunkTimeoutCount + 1) :
    readOnTimeout st =
      ((sendTransferParameters
          { st with chunkTimeoutCount := st.chunkTimeoutCount + 1 }).1,
       [(sendTransferParameters
          { st with chunkTimeoutCount := st.chunkTimeoutCount + 1 }).2]) := by
  rw [readOnTimeout, if_neg hle]

lemma timeoutRun_spec (n : Nat) : ∀ st : ReadState, st.done = false →
    (timeoutRun n st).2.length =
      min n (st.maxRetries - st.chunkTimeoutCount) ∧
    ((timeoutRun n st).1.done = true ↔
      st.maxRetries - st.chunkTimeoutCount + 1 ≤ n) ∧
    ((timeoutRun n st).1.done = true →
      (timeoutRun n st).1.status = .deadlineExceeded) ∧
    ∀ c ∈ (timeoutRun n st).2, c = paramsChunk st := by
  induction n with
  | zero =>
      intro st hd
      have h0 : timeoutRun 0 st = (st, []) := rfl
      rw [h0]
      refine ⟨by simp, by simp [hd], by simp [hd], by simp⟩
  | succ n ih =>
      intro st hd
      rw [timeoutRun_succ n st hd]
      by_cases hgt : st.maxRetries < st.chunkTimeoutCount + 1
      · rw [readOnTimeout_finish st hgt,
          timeoutRun_done n
            (readFinish { st with chunkTimeoutCount := st.chunkTimeoutCount + 1 }
              .deadlineExceeded) rfl]
        have hr0 : st.maxRetries - st.chunkTimeoutCount = 0 := by omega
        refine ⟨by simp [hr0], ?_, fun _ => rfl, by simp⟩
        rw [hr0]
        exact ⟨fun _ => by omega, fun _ => rfl⟩
      · rw [readOnTimeout_retry st hgt]
        have ihp := ih (sendTransferParameters
          { st with chunkTimeoutCount := st.chunkTimeoutCount + 1 }).1 hd
        have e1 : (timeoutRun n (sendTransferParameters
            { st with chunkTimeoutCount := st.chunkTimeoutCount + 1 }).1).2.length
            = min n (st.maxRetries - (st.chunkTimeoutCount + 1)) := ihp.1
        have e2 : ((timeoutRun n (sendTransferParameters
            { st with chunkTimeoutCount := st.chunkTimeoutCount + 1 }).1).1.done
            = true ↔ st.maxRetries - (st.chunkTimeoutCount + 1) + 1 ≤ n) :=
          ihp.2.1
        have e4 : ∀ c ∈ (timeoutRun n (sendTransferParameters
            { st with chunkTimeoutCount := st.chunkTimeoutCount + 1 }).1).2,
            c = paramsChunk st := ihp.2.2.2
        have hsub : st.maxRetries - st.chunkTimeoutCount =
            (st.maxRetries - (st.chunkTimeoutCount + 1)) + 1 := by omega
        refine ⟨?_, ?_, ihp.2.2.1, ?_⟩
        · rw [List.singleton_append, List.length_cons, e1, hsub,
            Nat.succ_min_succ]
        · rw [e2, hsub]
          omega
        · intro c hc
          rw [List.singleton_append, List.mem_cons] at hc
          rcases hc with h | h
          · rw [h]
            rfl
          · exact e4 c h

/-- C3: a read transfer whose server sends no chunks emits the initial
parameters chunk from `begin` plus one per timeout retry — at most
`max_retries + 1` parameters chunks in total — and after `max_retries + 1`
timeouts it has finished with DEADLINE_EXCEEDED having emitted exactly
`max_retries + 1` parameters chunks. -/
theorem c3_silent_server_retry_bound (tid mr mbr mcs : Nat) (d : Option Nat)
    (n : Nat) :
    ((readBegin (freshRead tid mr mbr mcs d)).2 ::
      (timeoutRun n (readBegin (freshRead tid mr mbr mcs d)).1).2).length
        ≤ mr + 1 ∧
    (∀ c ∈ (readBegin (freshRead tid mr mbr mcs d)).2 ::
      (timeoutRun n (readBegin (freshRead tid mr mbr mcs d)).1).2,
        c.status = none) ∧
    (mr + 1 ≤ n →
      (timeoutRun n (readBegin (freshRead tid mr mbr mcs d)).1).1.done
        = true ∧
      (timeoutRun n (readBegin (freshRead tid mr mbr mcs d)).1).1.status
        = .deadlineExceeded ∧
      ((readBegin (freshRead tid mr mbr mcs d)).2 ::
        (timeoutRun n (readBegin (freshRead tid mr mbr mcs d)).1).2).length
          = mr + 1) := by
  have spec := timeoutRun_spec n (readBegin (freshRead tid mr mbr mcs d)).1 rfl
  have h1 : (timeoutRun n (readBegin (freshRead tid mr mbr mcs d)).1).2.length
      = min n (mr - 0) := spec.1
  have h2 : ((timeoutRun n (readBegin (freshRead tid mr mbr mcs d)).1).1.done
      = true ↔ mr - 0 + 1 ≤ n) := spec.2.1
  have hmin : min n (mr - 0) ≤ mr := by
    have := Nat.min_le_right n (mr - 0)
    omega
  refine ⟨?_, ?_, ?_⟩
  · rw [List.length_cons, h1]
    omega
  · intro c hc
    rw [List.mem_cons] at hc
    rcases hc with h | h
    · rw [h]
      rfl
    · rw [spec.2.2.2 c h]
      rfl
  · intro hn
    have hdone := h2.mpr (by omega)
    refine ⟨hdone, spec.2.2.1 hdone, ?_⟩
    rw [List.length_cons, h1]
    have : min n (mr - 0) = mr - 0 := Nat.min_eq_right (by omega)
    omega

/-- Witness for C3 with `max_retries = 2` and five timeouts: exactly three
parameters chunks then DEADLINE_EXCEEDED. -/
theorem c3_silent_server_retry_bound_witness :
    ((readBegin (freshRead 9 2 8192 1024 none)).2 ::
      (timeoutRun 5 (readBegin (freshRead 9 2 8192 1024 none)).1).2).length
        ≤ 2 + 1 ∧
    (∀ c ∈ (readBegin (freshRead 9 2 8192 1024 none)).2 ::
      (timeoutRun 5 (readBegin (freshRead 9 2 8192 1024 none)).1).2,
        c.status = none) ∧
    (2 + 1 ≤ 5 →
      (timeoutRun 5 (readBegin (freshRead 9 2 8192 1024 none)).1).1.done
        = true ∧
      (timeoutRun 5 (readBegin (freshRead 9 2 8192 1024 none)).1).1.status
        = .deadlineExceeded ∧
      ((readBegin (freshRead 9 2 8192 1024 none)).2 ::
        (timeoutRun 5 (readBegin (freshRead 9 2 8192 1024 none)).1).2).length
          = 2 + 1) :=
  c3_silent_server_retry_bound 9 2 8192 1024 none 5

/-! ### C10: send-loop termination -/

lemma nextChunk_data_len_le (st : WriteState) :
    (nextChunk st).data.length ≤ st.data.length - st.offset := by
  unfold nextChunk
  split
  · simp
  · simp [Nat.min_le_right]

lemma nextChunk_data_len_pos (st : WriteState) (hmcs : 0 < st.maxChunkSize)
    (hlt : st.offset < st.data.length) : 0 < (nextChunk st).data.length := by
  unfold nextChunk
  split
  · simpa using hlt
  · simp only [List.length_take, List.length_drop]
    exact Nat.lt_min.mpr ⟨hmcs, by omega⟩

lemma nextChunk_data_nil_of_mcs_zero (st : WriteState)
    (h : st.maxChunkSize = 0) : (nextChunk st).data = [] := by
  unfold nextChunk
  rw [h]
  split
  · exact List.drop_eq_nil_of_le (by omega)
  · simp

lemma sendLoop_mcs_zero (st : WriteState) (h : st.maxChunkSize = 0) :
    ∀ fuel, (sendLoop fuel st).1.maxBytesToSend = st.maxBytesToSend ∧
      ∀ c ∈ (sendLoop fuel st).2, c.data = [] := by
  intro fuel
  induction fuel generalizing st with
  | zero => exact ⟨rfl, by simp [sendLoop]⟩
  | succ fuel ih =>
      rw [sendLoop]
      by_cases hpos : st.maxBytesToSend > 0
      · rw [if_pos hpos]
        have hnil : (nextChunk st).data = [] :=
          nextChunk_data_nil_of_mcs_zero st h
        have ih1 := ih (sendStep st) h
        refine ⟨?_, ?_⟩
        · rw [ih1.1]
          simp [sendStep, hnil]
        · intro c hc
          rw [List.mem_cons] at hc
          rcases hc with hc | hc
          · rw [hc]
            exact hnil
          · exact ih1.2 c hc
      · rw [if_neg hpos]
        exact ⟨rfl, by simp⟩

lemma sendLoop_exit (fuel : Nat) : ∀ st : WriteState,
    0 < st.maxChunkSize →
    st.maxBytesToSend ≤ (st.data.length : Int) - (st.offset : Int) →
    st.maxBytesToSend ≤ (fuel : Int) →
    (sendLoop fuel st).1.maxBytesToSend ≤ 0 := by
  induction fuel with
  | zero =>
      intro st _ _ hf
      simpa [sendLoop] using hf
  | succ fuel ih =>
      intro st hmcs hinv hf
      rw [sendLoop]
      by_cases hpos : st.maxBytesToSend > 0
      · rw [if_pos hpos]
        have hlt : st.offset < st.data.length := by
          have : (st.offset : Int) < (st.data.length : Int) := by omega
          exact_mod_cast this
        have hdpos : 0 < (nextChunk st).data.length :=
          nextChunk_data_len_pos st hmcs hlt
        have hdle : (nextChunk st).data.length ≤ st.data.length - st.offset :=
          nextChunk_data_len_le st
        refine ih (sendStep st) hmcs ?_ ?_
        · show st.maxBytesToSend - ((nextChunk st).data.length : Int) ≤
            (st.data.length : Int) - ((st.offset + (nextChunk st).data.length : Nat) : Int)
          push_cast
          omega
        · show st.maxBytesToSend - ((nextChunk st).data.length : Int) ≤ (fuel : Int)
          push_cast at hf ⊢
          omega
      · rw [if_neg hpos]
        show st.maxBytesToSend ≤ 0
        omega

/-- C10: in `handle_chunk` with a parameters chunk whose offset is within
the payload, the send loop reaches its exit condition within
`max_bytes_to_send` iterations whenever the effective `max_chunk_size` is
positive; when `max_chunk_size = 0` and `max_bytes_to_send` is positive,
`_next_chunk` returns a chunk with empty data, so `max_bytes_to_send`
never decreases and no number of iterations reaches the exit condition —
the `while` loop does not terminate. -/
theorem c10_send_loop_termination (st : WriteState) (c : Chunk)
    (hoff : c.offset ≤ st.data.length) :
    (0 < (paramsUpdate st c).maxChunkSize →
      (sendLoop (paramsUpdate st c).maxBytesToSend.toNat
        (paramsUpdate st c)).1.maxBytesToSend ≤ 0) ∧
    ((paramsUpdate st c).maxChunkSize = 0 →
      0 < (paramsUpdate st c).maxBytesToSend →
      (nextChunk (paramsUpdate st c)).data = [] ∧
      ∀ fuel, (sendLoop fuel (paramsUpdate st c)).1.maxBytesToSend =
          (paramsUpdate st c).maxBytesToSend ∧
        ∀ c2 ∈ (sendLoop fuel (paramsUpdate st c)).2, c2.data = []) := by
  constructor
  · intro hmcs
    refine sendLoop_exit _ _ hmcs ?_ ?_
    · show min (c.pending_bytes : Int) ((st.data.length : Int) - (c.offset : Int)) ≤
        (st.data.length : Int) - (c.offset : Int)
      exact min_le_right _ _
    · exact Int.self_le_toNat _
  · intro hmcs hpos
    exact ⟨nextChunk_data_nil_of_mcs_zero _ hmcs,
      fun fuel => sendLoop_mcs_zero _ hmcs fuel⟩

/-- Witness for C10: a payload of 3 bytes.  With `max_chunk_size = 2` the
loop exits; a parameters chunk carrying `max_chunk_size_bytes = 0` and a
positive window makes every iteration emit an empty chunk and leave
`max_bytes_to_send` unchanged. -/
theorem c10_send_loop_termination_witness :
    ((0 : Nat) ≤ (freshWrite 4 [1, 2, 3]).data.length) ∧
    ((0 < (paramsUpdate (freshWrite 4 [1, 2, 3])
        { transfer_id := 4, offset := 0, pending_bytes := 5,
          max_chunk_size_bytes := some 0 }).maxChunkSize →
      (sendLoop (paramsUpdate (freshWrite 4 [1, 2, 3])
          { transfer_id := 4, offset := 0, pending_bytes := 5,
            max_chunk_size_bytes := some 0 }).maxBytesToSend.toNat
        (paramsUpdate (freshWrite 4 [1, 2, 3])
          { transfer_id := 4, offset := 0, pending_bytes := 5,
            max_chunk_size_bytes := some 0 })).1.maxBytesToSend ≤ 0) ∧
     ((paramsUpdate (freshWrite 4 [1, 2, 3])
          { transfer_id := 4, offset := 0, pending_bytes := 5,
            max_chunk_size_bytes := some 0 }).maxChunkSize = 0 →
      0 < (paramsUpdate (freshWrite 4 [1, 2, 3])
          { transfer_id := 4, offset := 0, pending_bytes := 5,
            max_chunk_size_bytes := some 0 }).maxBytesToSend →
      (nextChunk (paramsUpdate (freshWrite 4 [1, 2, 3])
          { transfer_id := 4, offset := 0, pending_bytes := 5,
            max_chunk_size_bytes := some 0 })).data = [] ∧
      ∀ fuel, (sendLoop fuel (paramsUpdate (freshWrite 4 [1, 2, 3])
          { transfer_id := 4, offset := 0, pending_bytes := 5,
            max_chunk_size_bytes := some 0 })).1.maxBytesToSend =
          (paramsUpdate (freshWrite 4 [1, 2, 3])
            { transfer_id := 4, offset := 0, pending_bytes := 5,
              max_chunk_size_bytes := some 0 }).maxBytesToSend ∧
        ∀ c2 ∈ (sendLoop fuel (paramsUpdate (freshWrite 4 [1, 2, 3])
            { transfer_id := 4, offset := 0, pending_bytes := 5,
              max_chunk_size_bytes := some 0 })).2, c2.data = [])) :=
  ⟨by decide,
   c10_send_loop_termination (freshWrite 4 [1, 2, 3])
     { transfer_id := 4, offset := 0, pending_bytes := 5,
       max_chunk_size_bytes := some 0 } (by decide)⟩

/-! ### C2: emitted write chunks under in-order windows -/

lemma nondecr_cons (x : Nat) (ys : List Nat) (h1 : ∀ y ∈ ys, x ≤ y)
    (h2 : nondecr ys = true) : nondecr (x :: ys) = true := by
  cases ys with
  | nil => rfl
  | cons y t =>
      have hx : x ≤ y := h1 y (List.mem_cons_self y t)
      simp [nondecr, hx, h2]

lemma nondecr_tail (x : Nat) (t : List Nat) (h : nondecr (x :: t) = true) :
    nondecr t = true := by
  cases t with
  | nil => rfl
  | cons y u =>
      rw [nondecr, Bool.and_eq_true] at h
      exact h.2

lemma nondecr_head_le (x : Nat) (t : List Nat) (h : nondecr (x :: t) = true) :
    ∀ y ∈ t, x ≤ y := by
  induction t generalizing x with
  | nil => simp
  | cons y u ih =>
      intro z hz
      rw [nondecr, Bool.and_eq_true, decide_eq_true_eq] at h
      rcases List.mem_cons.mp hz with hz | hz
      · rw [hz]
        exact h.1
      · exact le_trans h.1 (ih y h.2 z hz)

lemma nondecr_append : ∀ xs ys : List Nat, nondecr xs = true →
    nondecr ys = true → (∀ a ∈ xs, ∀ b ∈ ys, a ≤ b) →
    nondecr (xs ++ ys) = true := by
  intro xs
  induction xs with
  | nil =>
      intro ys _ hy _
      simpa using hy
  | cons x t ih =>
      intro ys hx hy hxy
      rw [List.cons_append]
      refine nondecr_cons x (t ++ ys) ?_ ?_
      · intro y hyy
        rcases List.mem_append.mp hyy with h | h
        · exact nondecr_head_le x t hx y h
        · exact hxy x (List.mem_cons_self x t) y h
      · exact ih ys (nondecr_tail x t hx) hy
          (fun a ha b hb => hxy a (List.mem_cons_of_mem x ha) b hb)

lemma sendLoop_zero (st : WriteState) : sendLoop 0 st = (st, []) := rfl

lemma sendLoop_succ_pos (fuel : Nat) (st : WriteState)
    (h : st.maxBytesToSend > 0) :
    sendLoop (fuel + 1) st =
      ((sendLoop fuel (sendStep st)).1,
       nextChunk st :: (sendLoop fuel (sendStep st)).2) := by
  rw [sendLoop, if_pos h]

lemma sendLoop_succ_nonpos (fuel : Nat) (st : WriteState)
    (h : ¬ st.maxBytesToSend > 0) :
    sendLoop (fuel + 1) st = (st, []) := by
  rw [sendLoop, if_neg h]

lemma nextChunk_offset (st : WriteState) : (nextChunk st).offset = st.offset := by
  unfold nextChunk
  split <;> rfl

lemma nextChunk_status (st : WriteState) : (nextChunk st).status = none := by
  unfold nextChunk
  split <;> rfl

lemma nextChunk_tid (st : WriteState) : (nextChunk st).transfer_id = st.id := by
  unfold nextChunk
  split <;> rfl

lemma nextChunk_rem_iff (st : WriteState) (h : st.offset ≤ st.data.length) :
    ((nextChunk st).remaining_bytes = some 0 ↔
      (nextChunk st).offset + (nextChunk st).data.length = st.data.length) := by
  by_cases hc : st.data.length - st.offset ≤ st.maxChunkSize
  · unfold nextChunk
    rw [if_pos hc]
    simp only [List.length_drop]
    constructor
    · intro _
      omega
    · intro _
      trivial
  · unfold nextChunk
    rw [if_neg hc]
    simp only [List.length_take, List.length_drop]
    constructor
    · intro hfalse
      exact absurd hfalse (by simp)
    · intro heq
      omega

lemma sendLoop_const (fuel : Nat) : ∀ st : WriteState,
    (sendLoop fuel st).1.data = st.data ∧
    (sendLoop fuel st).1.id = st.id ∧
    (sendLoop fuel st).1.maxChunkSize = st.maxChunkSize ∧
    (sendLoop fuel st).1.done = st.done ∧
    (sendLoop fuel st).1.status = st.status := by
  induction fuel with
  | zero => exact fun st => ⟨rfl, rfl, rfl, rfl, rfl⟩
  | succ fuel ih =>
      intro st
      by_cases h : st.maxBytesToSend > 0
      · rw [sendLoop_succ_pos fuel st h]
        exact ih (sendStep st)
      · rw [sendLoop_succ_nonpos fuel st h]
        exact ⟨rfl, rfl, rfl, rfl, rfl⟩

lemma sendLoop_offset (fuel : Nat) : ∀ st : WriteState,
    (sendLoop fuel st).1.offset =
      st.offset + (((sendLoop fuel st).2).map (fun c => c.data.length)).sum := by
  induction fuel with
  | zero =>
      intro st
      simp [sendLoop_zero]
  | succ fuel ih =>
      intro st
      by_cases h : st.maxBytesToSend > 0
      · rw [sendLoop_succ_pos fuel st h]
        show (sendLoop fuel (sendStep st)).1.offset =
          st.offset + (((nextChunk st :: (sendLoop fuel (sendStep st)).2).map
            (fun c => c.data.length)).sum)
        rw [List.map_cons, List.sum_cons, ih (sendStep st)]
        show st.offset + (nextChunk st).data.length + _ = _
        rw [Nat.add_assoc]
      · rw [sendLoop_succ_nonpos fuel st h]
        simp

lemma sendLoop_offset_le_len (fuel : Nat) : ∀ st : WriteState,
    st.offset ≤ st.data.length →
    (sendLoop fuel st).1.offset ≤ st.data.length := by
  induction fuel with
  | zero =>
      intro st h
      exact h
  | succ fuel ih =>
      intro st h
      by_cases hpos : st.maxBytesToSend > 0
      · rw [sendLoop_succ_pos fuel st hpos]
        have hlen := nextChunk_data_len_le st
        have hstep : (sendStep st).offset ≤ (sendStep st).data.length := by
          show st.offset + (nextChunk st).data.length ≤ st.data.length
          omega
        exact ih (sendStep st) hstep
      · rw [sendLoop_succ_nonpos fuel st hpos]
        exact h

lemma sendLoop_chunks (fuel : Nat) : ∀ st : WriteState,
    st.offset ≤ st.data.length →
    ∀ c ∈ (sendLoop fuel st).2,
      c.status = none ∧ c.transfer_id = st.id ∧ st.offset ≤ c.offset ∧
      c.offset + c.data.length ≤ (sendLoop fuel st).1.offset ∧
      (c.remaining_bytes = some 0 ↔
        c.offset + c.data.length = st.data.length) := by
  induction fuel with
  | zero =>
      intro st _ c hc
      simp [sendLoop_zero] at hc
  | succ fuel ih =>
      intro st h c hc
      by_cases hpos : st.maxBytesToSend > 0
      · rw [sendLoop_succ_pos fuel st hpos] at hc ⊢
        have hlen := nextChunk_data_len_le st
        have hstep : (sendStep st).offset ≤ (sendStep st).data.length := by
          show st.offset + (nextChunk st).data.length ≤ st.data.length
          omega
        rcases List.mem_cons.mp hc with hc | hc
        · rw [hc]
          refine ⟨nextChunk_status st, nextChunk_tid st, ?_, ?_, ?_⟩
          · rw [nextChunk_offset st]
          · have ho := sendLoop_offset fuel (sendStep st)
            have hge : (sendStep st).offset ≤
                (sendLoop fuel (sendStep st)).1.offset := by
              rw [ho]
              exact Nat.le_add_right _ _
            have he : (sendStep st).offset =
                st.offset + (nextChunk st).data.length := rfl
            rw [nextChunk_offset st]
            show st.offset + (nextChunk st).data.length ≤
              (sendLoop fuel (sendStep st)).1.offset
            omega
          · exact nextChunk_rem_iff st h
        · have ihc := ih (sendStep st) hstep c hc
          have h3 : st.offset + (nextChunk st).data.length ≤ c.offset := ihc.2.2.1
          refine ⟨ihc.1, ihc.2.1, by omega, ihc.2.2.2.1, ihc.2.2.2.2⟩
      · rw [sendLoop_succ_nonpos fuel st hpos] at hc
        simp at hc

lemma sendLoop_nondecr (fuel : Nat) : ∀ st : WriteState,
    st.offset ≤ st.data.length →
    nondecr ((sendLoop fuel st).2.map (fun c => c.offset)) = true := by
  induction fuel with
  | zero =>
      intro st _
      simp [sendLoop_zero, nondecr]
  | succ fuel ih =>
      intro st h
      by_cases hpos : st.maxBytesToSend > 0
      · rw [sendLoop_succ_pos fuel st hpos, List.map_cons]
        have hlen := nextChunk_data_len_le st
        have hstep : (sendStep st).offset ≤ (sendStep st).data.length := by
          show st.offset + (nextChunk st).data.length ≤ st.data.length
          omega
        refine nondecr_cons _ _ ?_ (ih (sendStep st) hstep)
        intro y hy
        rcases List.mem_map.mp hy with ⟨x, hx, hxy⟩
        have hxc := sendLoop_chunks fuel (sendStep st) hstep x hx
        have h4 : st.offset + (nextChunk st).data.length ≤ x.offset := hxc.2.2.1
        rw [← hxy, nextChunk_offset st]
        omega
      · rw [sendLoop_succ_nonpos fuel st hpos]
        simp [nondecr]

lemma sendLoop_last (fuel : Nat) : ∀ st : WriteState, ∀ c : Chunk,
    ((sendLoop fuel st).2).getLast? = some c →
    c.offset + c.data.length = (sendLoop fuel st).1.offset := by
  induction fuel with
  | zero =>
      intro st c hc
      simp [sendLoop_zero] at hc
  | succ fuel ih =>
      intro st c hc
      by_cases hpos : st.maxBytesToSend > 0
      · rw [sendLoop_succ_pos fuel st hpos] at hc ⊢
        cases hrest : (sendLoop fuel (sendStep st)).2 with
        | nil =>
            rw [hrest] at hc
            simp only [List.getLast?_singleton, Option.some.injEq] at hc
            have ho := sendLoop_offset fuel (sendStep st)
            rw [hrest] at ho
            simp only [List.map_nil, List.sum_nil, Nat.add_zero] at ho
            show c.offset + c.data.length = (sendLoop fuel (sendStep st)).1.offset
            rw [← hc, nextChunk_offset st, ho]
            rfl
        | cons r rs =>
            rw [hrest, List.getLast?_cons_cons] at hc
            rw [← hrest] at hc
            exact ih (sendStep st) c hc
      · rw [sendLoop_succ_nonpos fuel st hpos] at hc
        simp at hc

lemma mem_of_getLast_some {α : Type} {l : List α} {x : α}
    (h : l.getLast? = some x) : x ∈ l := by
  rcases List.mem_getLast?_eq_getLast (show x ∈ l.getLast? from h) with ⟨hne, hx⟩
  rw [hx]
  exact List.getLast_mem hne

lemma writeRun_done (cs : List Chunk) (st : WriteState) (h : st.done = true) :
    writeRun st cs = (st, []) := by
  cases cs with
  | nil => rfl
  | cons c cs => rw [writeRun, if_pos h]

lemma writeRun_cons_fin (st : WriteState) (c : Chunk) (cs : List Chunk)
    (s : Status) (hd : st.done = false) (hs : c.status = some s) :
    writeRun st (c :: cs) = writeRun (writeFinish st s) cs := by
  rw [writeRun, if_neg (by simp [hd]), hs]

lemma writeRun_cons_handle (st : WriteState) (c : Chunk) (cs : List Chunk)
    (hd : st.done = false) (hs : c.status = none) :
    writeRun st (c :: cs) =
      ((writeRun (writeHandleChunk st c).1 cs).1,
       (writeHandleChunk st c).2 ++ (writeRun (writeHandleChunk st c).1 cs).2) := by
  rw [writeRun, if_neg (by simp [hd]), hs]

lemma inOrderB_cons_fin (st : WriteState) (c : Chunk) (cs : List Chunk)
    (s : Status) (hd : st.done = false) (hs : c.status = some s) :
    inOrderB st (c :: cs) = inOrderB (writeFinish st s) cs := by
  rw [inOrderB, if_neg (by simp [hd]), hs]

lemma inOrderB_cons_handle_elim (st : WriteState) (c : Chunk) (cs : List Chunk)
    (hd : st.done = false) (hs : c.status = none)
    (h : inOrderB st (c :: cs) = true) :
    c.offset = st.offset ∧
    0 < (c.max_chunk_size_bytes).getD st.maxChunkSize ∧
    inOrderB (writeHandleChunk st c).1 cs = true := by
  rw [inOrderB, if_neg (by simp [hd]), hs] at h
  simp only [Bool.and_eq_true, decide_eq_true_eq] at h
  exact ⟨by tauto, by tauto, by tauto⟩

lemma writeHandleChunk_inorder (st : WriteState) (c : Chunk)
    (hcle : c.offset ≤ st.data.length) :
    writeHandleChunk st c =
      ({ (loopOf st c).1 with timerRunning := true }, (loopOf st c).2) := by
  rw [writeHandleChunk, if_neg (by omega)]

lemma writeRun_inv : ∀ (cs : List Chunk) (st : WriteState),
    inOrderB st cs = true → st.offset ≤ st.data.length →
    ((writeRun st cs).1.data = st.data ∧
     (writeRun st cs).1.offset =
       st.offset + (((writeRun st cs).2).map (fun x => x.data.length)).sum ∧
     (writeRun st cs).1.offset ≤ st.data.length ∧
     (∀ x ∈ (writeRun st cs).2,
       x.status = none ∧ x.transfer_id = st.id ∧ st.offset ≤ x.offset ∧
       x.offset + x.data.length ≤ (writeRun st cs).1.offset ∧
       (x.remaining_bytes = some 0 ↔
         x.offset + x.data.length = st.data.length)) ∧
     nondecr (((writeRun st cs).2).map (fun x => x.offset)) = true ∧
     (∀ x : Chunk, ((writeRun st cs).2).getLast? = some x →
       x.offset + x.data.length = (writeRun st cs).1.offset)) := by
  intro cs
  induction cs with
  | nil =>
      intro st _ hle
      have h0 : writeRun st [] = (st, []) := rfl
      rw [h0]
      exact ⟨rfl, by simp, hle, by simp, by simp [nondecr], by simp⟩
  | cons c cs ih =>
      intro st hord hle
      by_cases hd : st.done = true
      · rw [writeRun_done (c :: cs) st hd]
        exact ⟨rfl, by simp, hle, by simp, by simp [nondecr], by simp⟩
      · have hd' : st.done = false := by
          revert hd
          cases st.done <;> simp
        cases hs : c.status with
        | some s =>
            rw [writeRun_cons_fin st c cs s hd' hs]
            have hord' : inOrderB (writeFinish st s) cs = true := by
              rw [inOrderB_cons_fin st c cs s hd' hs] at hord
              exact hord
            exact ih (writeFinish st s) hord' hle
        | none =>
            obtain ⟨hoff, hmcs, hord'⟩ :=
              inOrderB_cons_handle_elim st c cs hd' hs hord
            have hcle : c.offset ≤ st.data.length := by omega
            have hW := writeHandleChunk_inorder st c hcle
            have hpu_le : (paramsUpdate st c).offset ≤
                (paramsUpdate st c).data.length := hcle
            have hA_data : (loopOf st c).1.data = st.data :=
              (sendLoop_const _ (paramsUpdate st c)).1
            have hA_id : (loopOf st c).1.id = st.id :=
              (sendLoop_const _ (paramsUpdate st c)).2.1
            have hA_off : (loopOf st c).1.offset =
                c.offset + (((loopOf st c).2).map (fun x => x.data.length)).sum :=
              sendLoop_offset _ (paramsUpdate st c)
            have hA_le : (loopOf st c).1.offset ≤ st.data.length :=
              sendLoop_offset_le_len _ (paramsUpdate st c) hpu_le
            have hA_chunks : ∀ x ∈ (loopOf st c).2,
                x.status = none ∧ x.transfer_id = st.id ∧ c.offset ≤ x.offset ∧
                x.offset + x.data.length ≤ (loopOf st c).1.offset ∧
                (x.remaining_bytes = some 0 ↔
                  x.offset + x.data.length = st.data.length) :=
              sendLoop_chunks _ (paramsUpdate st c) hpu_le
            have hA_nondecr :
                nondecr (((loopOf st c).2).map (fun x => x.offset)) = true :=
              sendLoop_nondecr _ (paramsUpdate st c) hpu_le
            have hA_last : ∀ x : Chunk, ((loopOf st c).2).getLast? = some x →
                x.offset + x.data.length = (loopOf st c).1.offset :=
              fun x => sendLoop_last _ (paramsUpdate st c) x
            have hmid_data : (writeHandleChunk st c).1.data = st.data := by
              rw [hW]
              exact hA_data
            have hmid_off : (writeHandleChunk st c).1.offset =
                (loopOf st c).1.offset := by
              rw [hW]
            have hmid_id : (writeHandleChunk st c).1.id = st.id := by
              rw [hW]
              exact hA_id
            have hmid_le : (writeHandleChunk st c).1.offset ≤
                (writeHandleChunk st c).1.data.length := by
              rw [hW]
              show (loopOf st c).1.offset ≤ (loopOf st c).1.data.length
              rw [hA_data]
              exact hA_le
            have hmid_out : (writeHandleChunk st c).2 = (loopOf st c).2 := by
              rw [hW]
            have ihp := ih (writeHandleChunk st c).1 hord' hmid_le
            have i1 : (writeRun (writeHandleChunk st c).1 cs).1.data
                = st.data := by
              rw [ihp.1, hmid_data]
            have i2 := ihp.2.1
            have i3 : (writeRun (writeHandleChunk st c).1 cs).1.offset ≤
                st.data.length := by
              have h9 := ihp.2.2.1
              rwa [hmid_data] at h9
            have i4 := ihp.2.2.2.1
            have i5 := ihp.2.2.2.2.1
            have i6 := ihp.2.2.2.2.2
            have hAleR : (loopOf st c).1.offset ≤
                (writeRun (writeHandleChunk st c).1 cs).1.offset := by
              rw [i2, hmid_off]
              exact Nat.le_add_right _ _
            have hstmid : st.offset ≤ (writeHandleChunk st c).1.offset := by
              rw [hmid_off, hA_off, hoff]
              exact Nat.le_add_right _ _
            rw [writeRun_cons_handle st c cs hd' hs, hmid_out]
            refine ⟨i1, ?_, i3, ?_, ?_, ?_⟩
            · show (writeRun (writeHandleChunk st c).1 cs).1.offset =
                st.offset + ((((loopOf st c).2 ++
                  (writeRun (writeHandleChunk st c).1 cs).2).map
                    (fun x => x.data.length)).sum)
              rw [List.map_append, List.sum_append, i2, hmid_off, hA_off, hoff,
                Nat.add_assoc]
            · intro x hx
              rcases List.mem_append.mp hx with hxa | hxr
              · have hx4 := hA_chunks x hxa
                have hxb := hx4.2.2.2.1
                refine ⟨hx4.1, hx4.2.1, ?_, ?_, hx4.2.2.2.2⟩
                · rw [← hoff]
                  exact hx4.2.2.1
                · show x.offset + x.data.length ≤
                    (writeRun (writeHandleChunk st c).1 cs).1.offset
                  omega
              · have hx4 := i4 x hxr
                have h5 := hx4.2.2.1
                refine ⟨hx4.1, ?_, by omega, hx4.2.2.2.1, ?_⟩
                · rw [← hmid_id]
                  exact hx4.2.1
                · rw [← hmid_data]
                  exact hx4.2.2.2.2
            · show nondecr (((loopOf st c).2 ++
                (writeRun (writeHandleChunk st c).1 cs).2).map
                  (fun x => x.offset)) = true
              rw [List.map_append]
              refine nondecr_append _ _ hA_nondecr i5 ?_
              intro a ha b hb
              rcases List.mem_map.mp ha with ⟨xa, hxa, hae⟩
              rcases List.mem_map.mp hb with ⟨xb, hxb, hbe⟩
              have h7 := (hA_chunks xa hxa).2.2.2.1
              have h8 : (writeHandleChunk st c).1.offset ≤ xb.offset :=
                (i4 xb hxb).2.2.1
              rw [hmid_off] at h8
              rw [← hae, ← hbe]
              omega
            · intro x hx
              have hx' : (((loopOf st c).2 ++
                  (writeRun (writeHandleChunk st c).1 cs).2)).getLast?
                    = some x := hx
              show x.offset + x.data.length =
                (writeRun (writeHandleChunk st c).1 cs).1.offset
              cases hR2 : (writeRun (writeHandleChunk st c).1 cs).2 with
              | nil =>
                  rw [hR2, List.append_nil] at hx'
                  have h10 := hA_last x hx'
                  have h11 : (writeRun (writeHandleChunk st c).1 cs).1.offset =
                      (writeHandleChunk st c).1.offset := by
                    rw [i2, hR2]
                    simp
                  rw [h11, hmid_off]
                  exact h10
              | cons r rs =>
                  rw [hR2, List.getLast?_append_cons, ← hR2] at hx'
                  exact i6 x hx'

/-- C2 (amended): for a write transfer whose server requests each window
at the client's current offset with a positive effective max chunk size
(no rollback), and which completes with status OK having transmitted the
whole payload, the sum of the `data` lengths of the emitted chunks equals
the payload length, the emitted offsets are non-decreasing, every emitted
chunk is non-terminating with `remaining_bytes = 0` set exactly when its
data reaches the end of the payload (the remaining tail fit within one
`max_chunk_size`), and in particular the final emitted data chunk carries
`remaining_bytes = 0`. -/
theorem c2_write_emission_laws (tid : Nat) (payload : List Nat)
    (cs : List Chunk)
    (hord : inOrderB (freshWrite tid payload) cs = true)
    (hdone : (writeRun (freshWrite tid payload) cs).1.done = true)
    (hok : (writeRun (freshWrite tid payload) cs).1.status = .ok)
    (hall : (writeRun (freshWrite tid payload) cs).1.offset = payload.length) :
    ((((writeRun (freshWrite tid payload) cs).2).map
        (fun x => x.data.length)).sum = payload.length) ∧
    nondecr (((writeRun (freshWrite tid payload) cs).2).map
        (fun x => x.offset)) = true ∧
    (∀ x ∈ (writeRun (freshWrite tid payload) cs).2,
      x.status = none ∧
      (x.remaining_bytes = some 0 ↔
        x.offset + x.data.length = payload.length)) ∧
    (∀ x : Chunk,
      ((writeRun (freshWrite tid payload) cs).2).getLast? = some x →
      x.remaining_bytes = some 0) := by
  have hfle : (freshWrite tid payload).offset ≤
      (freshWrite tid payload).data.length := Nat.zero_le _
  have inv := writeRun_inv cs (freshWrite tid payload) hord hfle
  have h2 : (writeRun (freshWrite tid payload) cs).1.offset =
      0 + ((((writeRun (freshWrite tid payload) cs).2).map
        (fun x => x.data.length)).sum) := inv.2.1
  have h4 : ∀ x ∈ (writeRun (freshWrite tid payload) cs).2,
      x.status = none ∧ x.transfer_id = tid ∧ 0 ≤ x.offset ∧
      x.offset + x.data.length ≤
        (writeRun (freshWrite tid payload) cs).1.offset ∧
      (x.remaining_bytes = some 0 ↔
        x.offset + x.data.length = payload.length) := inv.2.2.2.1
  refine ⟨by omega, inv.2.2.2.2.1, ?_, ?_⟩
  · intro x hx
    exact ⟨(h4 x hx).1, (h4 x hx).2.2.2.2⟩
  · intro x hx
    have h6 := inv.2.2.2.2.2 x hx
    rw [hall] at h6
    exact ((h4 x (mem_of_getLast_some hx)).2.2.2.2).mpr h6

/-- A rollback trace: after the first window is fully sent, the server
re-requests from offset 4, and then terminates with OK. -/
def c2RollbackTrace : List Chunk :=
  [{ transfer_id := 1, offset := 0, pending_bytes := 10,
     max_chunk_size_bytes := some 4 },
   { transfer_id := 1, offset := 4, pending_bytes := 6 },
   { transfer_id := 1, status := some .ok }]

/-- The ten-byte payload used by the C2 counterexample and witness. -/
def c2Payload : List Nat := [0, 1, 2, 3, 4, 5, 6, 7, 8, 9]

/-- C2 as stated is false: after a server rollback the transfer still
completes with OK, but the emitted data lengths sum to 16 ≠ 10 and the
emitted offsets (0, 4, 8, 4, 8) are not non-decreasing. -/
theorem c2_write_emission_laws_counterexample :
    (writeRun (freshWrite 1 c2Payload) c2RollbackTrace).1.done = true ∧
    (writeRun (freshWrite 1 c2Payload) c2RollbackTrace).1.status = .ok ∧
    (writeRun (freshWrite 1 c2Payload) c2RollbackTrace).1.offset =
      c2Payload.length ∧
    ((((writeRun (freshWrite 1 c2Payload) c2RollbackTrace).2).map
        (fun x => x.data.length)).sum = 16) ∧
    c2Payload.length = 10 ∧
    ((((writeRun (freshWrite 1 c2Payload) c2RollbackTrace).2).map
        (fun x => x.data.length)).sum ≠ c2Payload.length) ∧
    nondecr (((writeRun (freshWrite 1 c2Payload) c2RollbackTrace).2).map
        (fun x => x.offset)) = false := by
  decide

/-- Scenario S2's trace: one window covering the whole payload, then OK. -/
def c2OkTrace : List Chunk :=
  [{ transfer_id := 1, offset := 0, pending_bytes := 10,
     max_chunk_size_bytes := some 4 },
   { transfer_id := 1, status := some .ok }]

/-- Witness for the amended C2 at scenario S2: chunks (offset 0, 4 bytes),
(offset 4, 4 bytes), (offset 8, 2 bytes, remaining_bytes 0). -/
theorem c2_write_emission_laws_witness :
    inOrderB (freshWrite 1 c2Payload) c2OkTrace = true ∧
    (writeRun (freshWrite 1 c2Payload) c2OkTrace).1.done = true ∧
    (writeRun (freshWrite 1 c2Payload) c2OkTrace).1.status = .ok ∧
    (writeRun (freshWrite 1 c2Payload) c2OkTrace).1.offset =
      c2Payload.length ∧
    (((((writeRun (freshWrite 1 c2Payload) c2OkTrace).2).map
        (fun x => x.data.length)).sum = c2Payload.length) ∧
     nondecr (((writeRun (freshWrite 1 c2Payload) c2OkTrace).2).map
        (fun x => x.offset)) = true ∧
     (∀ x ∈ (writeRun (freshWrite 1 c2Payload) c2OkTrace).2,
       x.status = none ∧
       (x.remaining_bytes = some 0 ↔
         x.offset + x.data.length = c2Payload.length)) ∧
     (∀ x : Chunk,
       ((writeRun (freshWrite 1 c2Payload) c2OkTrace).2).getLast? = some x →
       x.remaining_bytes = some 0)) :=
  ⟨by decide, by decide, by decide, by decide,
   c2_write_emission_laws 1 c2Payload c2OkTrace
     (by decide) (by decide) (by decide) (by decide)⟩

end PwTransfer
